import Mathlib

/-!
Shallow embedding of the directional grid-traversal engine and its two
consumers (word-search scanner, guard simulator) from the repository's
Rust sources (`src/util/src/lib.rs`, `src/day04/src/main.rs`,
`src/day06/src/main.rs`), together with theorems settling the frozen
claims about them.

Grids `&[Vec<T>]` are modelled as `List (List α)`; `usize` as `Nat`.
Rust's panicking index `grid[y]` is modelled by `rowGet` (defaulting to
`[]`); wherever a panic is actually reachable it is tracked explicitly
(`nid_panics`, the `Fail` error type of the guard simulator, `Option`
results of the word scanner).
-/

namespace AoC2024

/-- The 8 compass directions of `util::Direction`. -/
inductive Direction where
  | Up
  | Down
  | Left
  | Right
  | UpperRight
  | UpperLeft
  | LowerRight
  | LowerLeft
deriving DecidableEq, Repr

/-- `util::Neighbor`: a direction together with an `(x, y)` position. -/
structure Neighbor where
  direction : Direction
  position : Nat × Nat
deriving DecidableEq, Repr

/-- `Neighbor::new(direction, x, y)`. -/
def Neighbor.new (direction : Direction) (x y : Nat) : Neighbor :=
  ⟨direction, (x, y)⟩

/-- Rust's panicking row index `grid[y]`, modelled totally with default `[]`.
Panics are tracked separately where reachable (`nid_panics`). -/
def rowGet (grid : List (List α)) (y : Nat) : List α :=
  grid[y]?.getD []

/-- `Neighbor::next(self, grid)` from `src/util/src/lib.rs:161-225`:
one further step in the same direction from the neighbor's own position. -/
def Neighbor.next (n : Neighbor) (grid : List (List α)) : Option Neighbor :=
  match n with
  | ⟨d, (x, y)⟩ =>
    match d with
    | .Right =>
      if (grid[y]?.bind (fun r => r[x + 1]?)).isSome then
        some (Neighbor.new .Right (x + 1) y)
      else
        none
    | .Left =>
      if grid[y]?.isSome ∧ 0 < x then
        some (Neighbor.new .Left (x - 1) y)
      else
        none
    | .Up =>
      if 0 < y then
        some (Neighbor.new .Up x (y - 1))
      else
        none
    | .Down =>
      if (grid[y + 1]?.bind (fun r => r[x]?)).isSome then
        some (Neighbor.new .Down x (y + 1))
      else
        none
    | .UpperRight =>
      if 0 < y ∧ (rowGet grid (y - 1))[x + 1]?.isSome then
        some (Neighbor.new .UpperRight (x + 1) (y - 1))
      else
        none
    | .UpperLeft =>
      if 0 < y ∧ 0 < x then
        some (Neighbor.new .UpperLeft (x - 1) (y - 1))
      else
        none
    | .LowerRight =>
      if (grid[y + 1]?.bind (fun r => r[x + 1]?)).isSome then
        some (Neighbor.new .LowerRight (x + 1) (y + 1))
      else
        none
    | .LowerLeft =>
      if grid[y + 1]?.isSome ∧ 0 < x then
        some (Neighbor.new .LowerLeft (x - 1) (y + 1))
      else
        none

/-- `util::neighbor_in_direction` from `src/util/src/lib.rs:234-264`.
`y.checked_sub(1)` becomes a `0 < y` test producing `y - 1`. -/
def neighbor_in_direction (grid : List (List α)) (direction : Direction)
    (x y : Nat) : Option Neighbor :=
  match direction with
  | .Up =>
    if 0 < y then some (Neighbor.new .Up x (y - 1)) else none
  | .Down =>
    grid[y + 1]?.map (fun _ => Neighbor.new .Down x (y + 1))
  | .Left =>
    if 0 < x then some (Neighbor.new .Left (x - 1) y) else none
  | .Right =>
    (rowGet grid y)[x + 1]?.map (fun _ => Neighbor.new .Right (x + 1) y)
  | .UpperLeft =>
    if 0 < y ∧ 0 < x then some (Neighbor.new .UpperLeft (x - 1) (y - 1)) else none
  | .UpperRight =>
    if 0 < y then
      (rowGet grid (y - 1))[x + 1]?.map
        (fun _ => Neighbor.new .UpperRight (x + 1) (y - 1))
    else
      none
  | .LowerLeft =>
    if grid[y + 1]?.isSome ∧ 0 < x then
      some (Neighbor.new .LowerLeft (x - 1) (y + 1))
    else
      none
  | .LowerRight =>
    grid[y + 1]?.bind (fun _ =>
      (rowGet grid (y + 1))[x + 1]?.map
        (fun _ => Neighbor.new .LowerRight (x + 1) (y + 1)))

/-- The inputs on which Rust's `neighbor_in_direction` would panic: the
`Right` arm indexes `grid[y]` and the `UpperRight` arm indexes `grid[y - 1]`
(after the `checked_sub` guard) without a bounds check. -/
def nid_panics (grid : List (List α)) (direction : Direction)
    (_x y : Nat) : Prop :=
  match direction with
  | .Right => grid.length ≤ y
  | .UpperRight => 0 < y ∧ grid.length ≤ y - 1
  | _ => False

/-- `util::neighbors` from `src/util/src/lib.rs:266-287`: the cardinal
directions, then (optionally) the diagonals, filtered through
`neighbor_in_direction`. -/
def neighbors (grid : List (List α)) (x y : Nat)
    (include_diagonals : Bool) : List Neighbor :=
  (if include_diagonals then
    [Direction.Up, .Down, .Left, .Right, .UpperLeft, .UpperRight,
     .LowerLeft, .LowerRight]
  else
    [Direction.Up, .Down, .Left, .Right]).filterMap
      (fun d => neighbor_in_direction grid d x y)

/-- Whether a move in direction `d` from `(x, y)` is accepted by
`neighbor_in_direction`: the per-direction bounds the code actually
checks (column bounds only for the rightward moves). -/
def stepAllowed (grid : List (List α)) (d : Direction) (x y : Nat) : Prop :=
  match d with
  | .Up => 0 < y
  | .Down => y + 1 < grid.length
  | .Left => 0 < x
  | .Right => x + 1 < (rowGet grid y).length
  | .UpperLeft => 0 < y ∧ 0 < x
  | .UpperRight => 0 < y ∧ x + 1 < (rowGet grid (y - 1)).length
  | .LowerLeft => y + 1 < grid.length ∧ 0 < x
  | .LowerRight => y + 1 < grid.length ∧ x + 1 < (rowGet grid (y + 1)).length

instance (grid : List (List α)) (d : Direction) (x y : Nat) :
    Decidable (stepAllowed grid d x y) := by
  unfold stepAllowed
  cases d <;> infer_instance

instance (grid : List (List α)) (d : Direction) (x y : Nat) :
    Decidable (nid_panics grid d x y) := by
  unfold nid_panics
  cases d <;> infer_instance

/-- The destination coordinates of a one-unit move in direction `d`. -/
def destPos (d : Direction) (x y : Nat) : Nat × Nat :=
  match d with
  | .Up => (x, y - 1)
  | .Down => (x, y + 1)
  | .Left => (x - 1, y)
  | .Right => (x + 1, y)
  | .UpperLeft => (x - 1, y - 1)
  | .UpperRight => (x + 1, y - 1)
  | .LowerLeft => (x - 1, y + 1)
  | .LowerRight => (x + 1, y + 1)

/-- The direction opposite to `d` (Up/Down, Left/Right,
UpperLeft/LowerRight, UpperRight/LowerLeft swapped). -/
def opposite : Direction → Direction
  | .Up => .Down
  | .Down => .Up
  | .Left => .Right
  | .Right => .Left
  | .UpperLeft => .LowerRight
  | .LowerRight => .UpperLeft
  | .UpperRight => .LowerLeft
  | .LowerLeft => .UpperRight

/-- The 4 cardinal directions. -/
def isCardinal : Direction → Bool
  | .Up => true
  | .Down => true
  | .Left => true
  | .Right => true
  | _ => false

example : neighbor_in_direction [[0, 1], [2]] .Down 1 0 =
    some (Neighbor.new .Down 1 1) := by decide

example : Neighbor.next (Neighbor.new .Down 1 0) [[0, 1], [2]] = none := by
  decide

example : neighbor_in_direction [[0], [1, 2]] .Up 1 1 =
    some (Neighbor.new .Up 1 0) := by decide

theorem isSome_iff_lt (l : List α) (n : Nat) :
    l[n]?.isSome ↔ n < l.length := by
  cases h : l[n]? with
  | none => simpa using List.getElem?_eq_none_iff.1 h
  | some a => simpa using (List.getElem?_eq_some_iff.1 h).1

theorem rowGet_eq (grid : List (List α)) (y : Nat) (r : List α)
    (h : grid[y]? = some r) : rowGet grid y = r := by
  simp [rowGet, h]

/-- Unconditional characterization of `neighbor_in_direction` in the
total model: it returns `some` exactly under `stepAllowed`, at the
shifted destination coordinates. -/
theorem nid_eq (grid : List (List α)) (d : Direction) (x y : Nat) :
    neighbor_in_direction grid d x y =
      (if stepAllowed grid d x y then
        some (Neighbor.new d (destPos d x y).1 (destPos d x y).2)
      else none) := by
  cases d with
  | Up => by_cases h : 0 < y <;> simp [neighbor_in_direction, stepAllowed, destPos, h]
  | Left => by_cases h : 0 < x <;> simp [neighbor_in_direction, stepAllowed, destPos, h]
  | Down =>
    cases h : grid[y + 1]? with
    | none =>
      have hlen := List.getElem?_eq_none_iff.1 h
      have hna : ¬ stepAllowed grid .Down x y := by simp [stepAllowed]; omega
      simp [neighbor_in_direction, h, if_neg hna]
    | some r =>
      have hlen := (isSome_iff_lt grid (y + 1)).1 (by simp [h])
      have ha : stepAllowed grid .Down x y := hlen
      simp [neighbor_in_direction, h, if_pos ha, destPos]
  | Right =>
    cases h : (rowGet grid y)[x + 1]? with
    | none =>
      have hlen := List.getElem?_eq_none_iff.1 h
      have hna : ¬ stepAllowed grid .Right x y := by simp [stepAllowed]; omega
      simp [neighbor_in_direction, h, if_neg hna]
    | some c =>
      have hlen := (isSome_iff_lt (rowGet grid y) (x + 1)).1 (by simp [h])
      have ha : stepAllowed grid .Right x y := hlen
      simp [neighbor_in_direction, h, if_pos ha, destPos]
  | UpperLeft =>
    by_cases h1 : 0 < y <;> by_cases h2 : 0 < x <;>
      simp [neighbor_in_direction, stepAllowed, destPos, h1, h2]
  | UpperRight =>
    by_cases h1 : 0 < y
    · cases h : (rowGet grid (y - 1))[x + 1]? with
      | none =>
        have hlen := List.getElem?_eq_none_iff.1 h
        have hna : ¬ stepAllowed grid .UpperRight x y := by simp [stepAllowed]; omega
        simp [neighbor_in_direction, h1, h, if_neg hna]
      | some c =>
        have hlen := (isSome_iff_lt (rowGet grid (y - 1)) (x + 1)).1 (by simp [h])
        have ha : stepAllowed grid .UpperRight x y := ⟨h1, hlen⟩
        simp [neighbor_in_direction, h1, h, if_pos ha, destPos]
    · have hna : ¬ stepAllowed grid .UpperRight x y := by simp [stepAllowed]; omega
      simp [neighbor_in_direction, h1, if_neg hna]
  | LowerLeft =>
    by_cases h2 : 0 < x
    · cases h : grid[y + 1]? with
      | none =>
        have hlen := List.getElem?_eq_none_iff.1 h
        have hna : ¬ stepAllowed grid .LowerLeft x y := by simp [stepAllowed]; omega
        simp [neighbor_in_direction, h, if_neg hna]
      | some r =>
        have hlen := (isSome_iff_lt grid (y + 1)).1 (by simp [h])
        have ha : stepAllowed grid .LowerLeft x y := ⟨hlen, h2⟩
        simp [neighbor_in_direction, h, h2, if_pos ha, destPos]
    · have hna : ¬ stepAllowed grid .LowerLeft x y := by simp [stepAllowed]; omega
      simp [neighbor_in_direction, h2, if_neg hna]
  | LowerRight =>
    cases h : grid[y + 1]? with
    | none =>
      have hlen := List.getElem?_eq_none_iff.1 h
      have hna : ¬ stepAllowed grid .LowerRight x y := by simp [stepAllowed]; omega
      simp [neighbor_in_direction, h, if_neg hna]
    | some r =>
      have hlen := (isSome_iff_lt grid (y + 1)).1 (by simp [h])
      cases h2 : (rowGet grid (y + 1))[x + 1]? with
      | none =>
        have hlen2 := List.getElem?_eq_none_iff.1 h2
        have hna : ¬ stepAllowed grid .LowerRight x y := by simp [stepAllowed]; omega
        simp [neighbor_in_direction, h, h2, if_neg hna]
      | some c =>
        have hlen2 := (isSome_iff_lt (rowGet grid (y + 1)) (x + 1)).1 (by simp [h2])
        have ha : stepAllowed grid .LowerRight x y := ⟨hlen, hlen2⟩
        simp [neighbor_in_direction, h, h2, if_pos ha, destPos]

/-- Modelled from the spec (for claim C1): the bounds rule the spec
ascribes to `step` — no negative coordinate on either axis, destination
row index within the row count, and destination column index within the
destination row's own length. -/
def spec_step_ok (grid : List (List α)) (d : Direction) (x y : Nat) : Prop :=
  (match d with
   | .Up => 0 < y
   | .Down => True
   | .Left => 0 < x
   | .Right => True
   | .UpperLeft => 0 < y ∧ 0 < x
   | .UpperRight => 0 < y
   | .LowerLeft => 0 < x
   | .LowerRight => True) ∧
  (destPos d x y).2 < grid.length ∧
  (destPos d x y).1 < (rowGet grid (destPos d x y).2).length

instance (grid : List (List α)) (d : Direction) (x y : Nat) :
    Decidable (spec_step_ok grid d x y) := by
  unfold spec_step_ok
  cases d <;> infer_instance

/-- C1: as stated the claim is false. On the ragged grid `[[0], [1, 2]]`,
the position `(1, 1)` is in bounds and the destination of an `Up` move,
`(1, 0)`, lies outside row 0's own length, yet `neighbor_in_direction`
returns `Some` of that out-of-row destination instead of `None` (the code
checks destination-row column bounds only for rightward moves). -/
theorem claim_C1_counterexample :
    1 < ([[0], [1, 2]] : List (List Nat)).length ∧
    1 < (rowGet [[0], [1, 2]] 1).length ∧
    ¬ spec_step_ok [[0], [1, 2]] Direction.Up 1 1 ∧
    neighbor_in_direction [[0], [1, 2]] Direction.Up 1 1 =
      some (Neighbor.new .Up 1 0) := by
  decide

/-- C1 (amended): for every grid, direction and in-bounds position,
`neighbor_in_direction` does not panic, and returns `Some` of the
destination exactly under the bounds the code actually checks
(`stepAllowed`): sign and row-count conditions always, but
destination-row column bounds only for the rightward moves
(`Right`, `UpperRight`, `LowerRight`); `None` otherwise. -/
theorem claim_C1_step_bounds (grid : List (List α)) (d : Direction)
    (x y : Nat) (hy : y < grid.length) (_hx : x < (rowGet grid y).length) :
    ¬ nid_panics grid d x y ∧
    neighbor_in_direction grid d x y =
      (if stepAllowed grid d x y then
        some (Neighbor.new d (destPos d x y).1 (destPos d x y).2)
      else none) := by
  refine ⟨?_, nid_eq grid d x y⟩
  cases d <;> simp [nid_panics] <;> omega

/-- Witness for C1's amended theorem at a concrete in-bounds input. -/
theorem claim_C1_step_bounds_witness :
    ¬ nid_panics ([[0, 1], [2, 3]] : List (List Nat)) Direction.LowerRight 0 0 ∧
    neighbor_in_direction ([[0, 1], [2, 3]] : List (List Nat)) Direction.LowerRight 0 0 =
      (if stepAllowed ([[0, 1], [2, 3]] : List (List Nat)) Direction.LowerRight 0 0 then
        some (Neighbor.new .LowerRight
          (destPos .LowerRight 0 0).1 (destPos .LowerRight 0 0).2)
      else none) :=
  claim_C1_step_bounds [[0, 1], [2, 3]] .LowerRight 0 0 (by decide) (by decide)

/-- Inversion for `neighbor_in_direction`: a `some` result is the tagged
destination, and the move was allowed. -/
theorem nid_some_pos (grid : List (List α)) (d : Direction) (x y : Nat)
    (n : Neighbor) (h : neighbor_in_direction grid d x y = some n) :
    n = Neighbor.new d (destPos d x y).1 (destPos d x y).2 ∧
      stepAllowed grid d x y := by
  rw [nid_eq] at h
  split at h
  · cases h
    exact ⟨rfl, by assumption⟩
  · cases h

/-- C2: as stated the claim is false. On the ragged grid `[[0, 1], [2]]`
at the in-bounds position `(1, 0)` with direction `Down`,
`Neighbor::next` returns `None` (it checks that column 1 exists in the
destination row) while `neighbor_in_direction` returns `Some` (it checks
only that the destination row exists). -/
theorem claim_C2_counterexample :
    0 < ([[0, 1], [2]] : List (List Nat)).length ∧
    1 < (rowGet [[0, 1], [2]] 0).length ∧
    Neighbor.next (Neighbor.new .Down 1 0) ([[0, 1], [2]] : List (List Nat)) = none ∧
    neighbor_in_direction ([[0, 1], [2]] : List (List Nat)) Direction.Down 1 0 =
      some (Neighbor.new .Down 1 1) := by
  decide

/-- Helper for C2 and C6: `Neighbor::next` agrees with
`neighbor_in_direction` at an in-bounds position, given the extra
destination-column condition that only the `Down` arm of `next` checks. -/
theorem next_eq_step (grid : List (List α)) (d : Direction)
    (x y : Nat) (hy : y < grid.length) (_hx : x < (rowGet grid y).length)
    (hD : d = .Down → y + 1 < grid.length → x < (rowGet grid (y + 1)).length) :
    Neighbor.next (Neighbor.new d x y) grid = neighbor_in_direction grid d x y := by
  have hrow : grid[y]? = some (rowGet grid y) :=
    by simp [rowGet, List.getElem?_eq_getElem hy]
  cases d with
  | Up => simp [Neighbor.next, neighbor_in_direction, Neighbor.new]
  | Left => simp [Neighbor.next, neighbor_in_direction, Neighbor.new, hrow]
  | UpperLeft => simp [Neighbor.next, neighbor_in_direction, Neighbor.new]
  | Right =>
    cases h : (rowGet grid y)[x + 1]? with
    | none => simp [Neighbor.next, neighbor_in_direction, Neighbor.new, hrow, h]
    | some c => simp [Neighbor.next, neighbor_in_direction, Neighbor.new, hrow, h]
  | Down =>
    cases h : grid[y + 1]? with
    | none => simp [Neighbor.next, neighbor_in_direction, Neighbor.new, h]
    | some r =>
      have hlen : y + 1 < grid.length := (isSome_iff_lt grid (y + 1)).1 (by simp [h])
      have hxr : x < r.length := by
        have := hD rfl hlen
        rwa [rowGet_eq grid (y + 1) r h] at this
      simp [Neighbor.next, neighbor_in_direction, Neighbor.new, h,
        List.getElem?_eq_getElem hxr]
  | UpperRight =>
    by_cases h1 : 0 < y <;>
      cases h : (rowGet grid (y - 1))[x + 1]? <;>
        simp [Neighbor.next, neighbor_in_direction, Neighbor.new, h1, h]
  | LowerLeft =>
    cases h : grid[y + 1]? <;>
      simp [Neighbor.next, neighbor_in_direction, Neighbor.new, h]
  | LowerRight =>
    cases h : grid[y + 1]? with
    | none => simp [Neighbor.next, neighbor_in_direction, Neighbor.new, h]
    | some r =>
      have hr := rowGet_eq grid (y + 1) r h
      cases h2 : (rowGet grid (y + 1))[x + 1]? <;> rw [hr] at h2 <;>
        simp [Neighbor.next, neighbor_in_direction, Neighbor.new, rowGet, h, h2]

/-- C2 (amended): for every grid, direction `d` and in-bounds position
`(x, y)`, `Neighbor::next` on a neighbor with direction `d` at `(x, y)`
agrees with `neighbor_in_direction grid d x y` — except that for `Down`
the agreement additionally needs column `x` to exist in the destination
row whenever that row exists (`Neighbor::next` checks it; the single
step does not), which is automatic on rectangular grids. -/
theorem claim_C2_next_refines_step (grid : List (List α)) (d : Direction)
    (x y : Nat) (hy : y < grid.length) (hx : x < (rowGet grid y).length)
    (hD : d = .Down → y + 1 < grid.length → x < (rowGet grid (y + 1)).length) :
    Neighbor.next (Neighbor.new d x y) grid = neighbor_in_direction grid d x y :=
  next_eq_step grid d x y hy hx hD

/-- Witness for C2's amended theorem at a concrete in-bounds input. -/
theorem claim_C2_next_refines_step_witness :
    Neighbor.next (Neighbor.new .Down 0 0) ([[0, 1], [2]] : List (List Nat)) =
      neighbor_in_direction ([[0, 1], [2]] : List (List Nat)) Direction.Down 0 0 :=
  claim_C2_next_refines_step [[0, 1], [2]] .Down 0 0 (by decide) (by decide)
    (by decide)

/-- C3: stepping in direction `d` from an in-bounds position and then
stepping in `opposite d` from the result returns the original position,
whenever both steps return a `Neighbor` (round-trip). -/
theorem claim_C3_roundtrip (grid : List (List α)) (d : Direction)
    (x y : Nat) (_hy : y < grid.length) (_hx : x < (rowGet grid y).length)
    (n n' : Neighbor)
    (h1 : neighbor_in_direction grid d x y = some n)
    (h2 : neighbor_in_direction grid (opposite d) n.position.1 n.position.2 =
      some n') :
    n'.position = (x, y) := by
  obtain ⟨rfl, hc1⟩ := nid_some_pos grid d x y n h1
  obtain ⟨rfl, _hc2⟩ := nid_some_pos grid (opposite d) _ _ n' h2
  cases d <;>
    simp [Neighbor.new, destPos, opposite, stepAllowed] at hc1 ⊢ <;>
    omega

/-- Witness for the round-trip theorem at a concrete input. -/
theorem claim_C3_roundtrip_witness :
    (Neighbor.new .LowerLeft 0 1).position = (0, 1) :=
  claim_C3_roundtrip ([[0, 1], [2, 3]] : List (List Nat)) .UpperRight 0 1
    (by decide) (by decide) (Neighbor.new .UpperRight 1 0)
    (Neighbor.new .LowerLeft 0 1) (by decide) (by decide)

/-- A produced neighbor carries the queried direction. -/
theorem nid_direction (grid : List (List α)) (d : Direction) (x y : Nat)
    (n : Neighbor) (h : neighbor_in_direction grid d x y = some n) :
    n.direction = d := by
  obtain ⟨rfl, -⟩ := nid_some_pos grid d x y n h
  rfl

/-- The directions of the neighbors produced from a direction list are
exactly the directions whose step succeeds, in order. -/
theorem filterMap_nid_map_direction (grid : List (List α)) (x y : Nat) :
    ∀ ds : List Direction,
      ((ds.filterMap (fun d => neighbor_in_direction grid d x y)).map
        Neighbor.direction) =
      ds.filter (fun d => (neighbor_in_direction grid d x y).isSome)
  | [] => rfl
  | d :: ds => by
    cases h : neighbor_in_direction grid d x y with
    | none =>
      simp [List.filterMap_cons, List.filter_cons, h,
        filterMap_nid_map_direction grid x y ds]
    | some n =>
      simp [List.filterMap_cons, List.filter_cons, h,
        filterMap_nid_map_direction grid x y ds, nid_direction grid d x y n h]

/-- C4: the cardinal-only neighbor list contains only cardinal
directions, each at most once and with no duplicate entries; the
diagonal-inclusive list has at most 8 entries, also one per direction;
and restricting the diagonal-inclusive list to cardinal directions
yields exactly the cardinal-only list. -/
theorem claim_C4_neighbors (grid : List (List α)) (x y : Nat)
    (_hy : y < grid.length) (_hx : x < (rowGet grid y).length) :
    (∀ n ∈ neighbors grid x y false, isCardinal n.direction = true) ∧
    (neighbors grid x y false).length ≤ 4 ∧
    (neighbors grid x y true).length ≤ 8 ∧
    ((neighbors grid x y false).map Neighbor.direction).Nodup ∧
    ((neighbors grid x y true).map Neighbor.direction).Nodup ∧
    (neighbors grid x y false).Nodup ∧
    (neighbors grid x y true).Nodup ∧
    neighbors grid x y false =
      (neighbors grid x y true).filter (fun n => isCardinal n.direction) := by
  have hdup4 : ((neighbors grid x y false).map Neighbor.direction).Nodup := by
    rw [neighbors, if_neg (by simp), filterMap_nid_map_direction]
    exact List.Nodup.filter _ (by decide)
  have hdup8 : ((neighbors grid x y true).map Neighbor.direction).Nodup := by
    rw [neighbors, if_pos rfl, filterMap_nid_map_direction]
    exact List.Nodup.filter _ (by decide)
  refine ⟨?_, ?_, ?_, hdup4, hdup8, hdup4.of_map, hdup8.of_map, ?_⟩
  · intro n hn
    rw [neighbors, if_neg (by simp)] at hn
    obtain ⟨d, hd, hnd⟩ := List.mem_filterMap.1 hn
    rw [nid_direction grid d x y n hnd]
    fin_cases hd <;> rfl
  · exact le_trans (List.length_filterMap_le _ _) (by rfl)
  · exact le_trans (List.length_filterMap_le _ _) (by rfl)
  · rw [neighbors, neighbors, if_neg (by simp), if_pos rfl]
    have hsplit :
        ([Direction.Up, .Down, .Left, .Right, .UpperLeft, .UpperRight,
          .LowerLeft, .LowerRight] : List Direction) =
        [Direction.Up, .Down, .Left, .Right] ++
          [Direction.UpperLeft, .UpperRight, .LowerLeft, .LowerRight] := rfl
    rw [hsplit, List.filterMap_append, List.filter_append]
    have h1 : (([Direction.Up, .Down, .Left, .Right] : List Direction).filterMap
        (fun d => neighbor_in_direction grid d x y)).filter
          (fun n => isCardinal n.direction) =
        ([Direction.Up, .Down, .Left, .Right] : List Direction).filterMap
          (fun d => neighbor_in_direction grid d x y) := by
      apply List.filter_eq_self.2
      intro n hn
      obtain ⟨d, hd, hnd⟩ := List.mem_filterMap.1 hn
      rw [nid_direction grid d x y n hnd]
      fin_cases hd <;> rfl
    have h2 : (([Direction.UpperLeft, .UpperRight, .LowerLeft, .LowerRight] :
        List Direction).filterMap
          (fun d => neighbor_in_direction grid d x y)).filter
          (fun n => isCardinal n.direction) = [] := by
      apply List.filter_eq_nil_iff.2
      intro n hn
      obtain ⟨d, hd, hnd⟩ := List.mem_filterMap.1 hn
      rw [nid_direction grid d x y n hnd]
      fin_cases hd <;> decide
    rw [h1, h2, List.append_nil]

/-- Witness for the neighbors theorem at a concrete in-bounds input. -/
theorem claim_C4_neighbors_witness :
    (∀ n ∈ neighbors ([[0, 1], [2, 3]] : List (List Nat)) 0 0 false,
      isCardinal n.direction = true) ∧
    (neighbors ([[0, 1], [2, 3]] : List (List Nat)) 0 0 false).length ≤ 4 ∧
    (neighbors ([[0, 1], [2, 3]] : List (List Nat)) 0 0 true).length ≤ 8 ∧
    ((neighbors ([[0, 1], [2, 3]] : List (List Nat)) 0 0 false).map
      Neighbor.direction).Nodup ∧
    ((neighbors ([[0, 1], [2, 3]] : List (List Nat)) 0 0 true).map
      Neighbor.direction).Nodup ∧
    (neighbors ([[0, 1], [2, 3]] : List (List Nat)) 0 0 false).Nodup ∧
    (neighbors ([[0, 1], [2, 3]] : List (List Nat)) 0 0 true).Nodup ∧
    neighbors ([[0, 1], [2, 3]] : List (List Nat)) 0 0 false =
      (neighbors ([[0, 1], [2, 3]] : List (List Nat)) 0 0 true).filter
        (fun n => isCardinal n.direction) :=
  claim_C4_neighbors [[0, 1], [2, 3]] 0 0 (by decide) (by decide)

/-! ## day04: word-search scanner

`Grid` is `Vec<Vec<char>>`, modelled as `List (List Char)`. The scanner
reads cells with the panicking index `self.0[y][x]`; a reachable panic is
modelled as `none`. -/

/-- The cell at `(x, y)`, or `none` when the read would panic. -/
def gridGet (grid : List (List Char)) (x y : Nat) : Option Char :=
  grid[y]?.bind (fun r => r[x]?)

/-- The fixed target word of day04 (`"XMAS".chars().collect()`). -/
def xmasWord : List Char := ['X', 'M', 'A', 'S']

/-- The inner `while i < word.len()` loop of `Grid::xmas_occurrences_from`
(`src/day04/src/main.rs:27-52`), walking one ray. `rest` is the word
suffix still to match. Returns `some true` when the whole word was
matched (`i == word.len()` on exit), `some false` when the ray was
abandoned, and `none` when the cell read `self.0[n_y][n_x]` would panic. -/
def walkRay (grid : List (List Char)) : List Char → Neighbor → Option Bool
  | [], _ => some true
  | e :: rest, nb =>
    match gridGet grid nb.position.1 nb.position.2 with
    | none => none
    | some a =>
      if a = e then
        match nb.next grid with
        | some n => walkRay grid rest n
        | none => some (decide (rest = []))
      else
        some false

/-- The `for neighbor in util::neighbors(...)` loop: total occurrences
over the candidate ray starts, `none` on a panic. -/
def countRays (grid : List (List Char)) (rest : List Char) :
    List Neighbor → Option Nat
  | [] => some 0
  | nb :: nbs =>
    match walkRay grid rest nb with
    | none => none
    | some b => (countRays grid rest nbs).map (fun k => k + if b then 1 else 0)

/-- `Grid::xmas_occurrences_from` (`src/day04/src/main.rs:12-63`),
generalized over the target word; `none` models a panic (out-of-bounds
cell read, or `word[0]` on an empty word). -/
def xmasOccurrencesFrom (grid : List (List Char)) (word : List Char)
    (x y : Nat) : Option Nat :=
  match word with
  | [] => none
  | w0 :: rest =>
    match gridGet grid x y with
    | none => none
    | some c =>
      if c ≠ w0 then some 0
      else countRays grid rest (neighbors grid x y true)

/-- Sum of a list of partial counts, propagating a panic. -/
def optSum : List (Option Nat) → Option Nat
  | [] => some 0
  | o :: os =>
    match o with
    | none => none
    | some k => (optSum os).map (fun m => k + m)

/-- `Grid::count_xmas_occurrences` (`src/day04/src/main.rs:67-77`):
sum of `xmas_occurrences_from` over every cell `(x, y)` with
`y < grid.len()` and `x < grid[y].len()`. -/
def countXmasOccurrences (grid : List (List Char)) (word : List Char) :
    Option Nat :=
  optSum ((List.range grid.length).map (fun y =>
    optSum ((List.range (rowGet grid y).length).map (fun x =>
      xmasOccurrencesFrom grid word x y))))

example :
    xmasOccurrencesFrom
      [['.', '.', 'X', '.', '.', '.'],
       ['.', 'S', 'A', 'M', 'X', '.'],
       ['.', 'A', '.', '.', 'A', '.'],
       ['X', 'M', 'A', 'S', '.', 'S'],
       ['.', 'X', '.', '.', '.', '.']] xmasWord 2 0 = some 1 := by decide

example :
    xmasOccurrencesFrom
      [['.', '.', 'X', '.', '.', '.'],
       ['.', 'S', 'A', 'M', 'X', '.'],
       ['.', 'A', '.', '.', 'A', '.'],
       ['X', 'M', 'A', 'S', '.', 'S'],
       ['.', 'X', '.', '.', '.', '.']] xmasWord 4 1 = some 1 := by decide

example :
    xmasOccurrencesFrom
      [['.', '.', 'X', '.', '.', '.'],
       ['.', 'S', 'A', 'M', 'X', '.'],
       ['.', 'A', '.', '.', 'A', '.'],
       ['X', 'M', 'A', 'S', '.', 'S'],
       ['.', 'X', '.', '.', '.', '.']] xmasWord 0 3 = some 1 := by decide

example :
    xmasOccurrencesFrom
      [['.', '.', 'X', '.', '.', '.'],
       ['.', 'S', 'A', 'M', 'X', '.'],
       ['.', 'A', '.', '.', 'A', '.'],
       ['X', 'M', 'A', 'S', '.', 'S'],
       ['.', 'X', '.', '.', '.', '.']] xmasWord 1 4 = some 1 := by decide

theorem countRays_nil (grid : List (List Char)) :
    ∀ l : List Neighbor, countRays grid [] l = some l.length
  | [] => rfl
  | nb :: nbs => by
    simp [countRays, walkRay, countRays_nil grid nbs]

/-- C5: as stated the claim is false. On the 1×1 grid `[['X']]` with the
length-1 word `['X']`, the single cell equals the word's character, yet
the per-cell count is 0 (one count is added per in-bounds neighbor
direction, and a 1×1 grid has none), not 1; the total is 0, not the
number of matching cells. -/
theorem claim_C5_counterexample :
    gridGet [['X']] 0 0 = some 'X' ∧
    xmasOccurrencesFrom [['X']] ['X'] 0 0 = some 0 ∧
    countXmasOccurrences [['X']] ['X'] = some 0 := by
  decide

/-- C5 (amended): for a length-1 word `[c]` and an in-bounds cell, the
per-cell occurrence count is the number of in-bounds neighbor directions
(diagonals included) when the cell equals `c` — one count per direction,
up to 8 — and 0 otherwise. -/
theorem claim_C5_length_one_word (grid : List (List Char)) (c : Char)
    (x y : Nat) (hy : y < grid.length) (hx : x < (rowGet grid y).length) :
    xmasOccurrencesFrom grid [c] x y =
      some (if gridGet grid x y = some c then
        (neighbors grid x y true).length
      else 0) := by
  have hrow : grid[y]? = some (rowGet grid y) := by
    simp [rowGet, List.getElem?_eq_getElem hy]
  have hcell : gridGet grid x y = some ((rowGet grid y).get ⟨x, hx⟩) := by
    simp [gridGet, hrow, List.getElem?_eq_getElem hx]
  rw [xmasOccurrencesFrom, hcell]
  by_cases hc : (rowGet grid y)[x] = c
  · simp [hc, countRays_nil]
  · simp [hc]

/-- Witness for the length-1-word theorem at a concrete input. -/
theorem claim_C5_length_one_word_witness :
    xmasOccurrencesFrom ([['X', 'X'], ['X', 'X']]) ['X'] 0 0 =
      some (if gridGet [['X', 'X'], ['X', 'X']] 0 0 = some 'X' then
        (neighbors ([['X', 'X'], ['X', 'X']] : List (List Char)) 0 0 true).length
      else 0) :=
  claim_C5_length_one_word [['X', 'X'], ['X', 'X']] 'X' 0 0 (by decide)
    (by decide)

/-- A grid all of whose rows have length `w`. -/
def rectGrid (grid : List (List α)) (w : Nat) : Prop :=
  ∀ r ∈ grid, r.length = w

instance (grid : List (List α)) (w : Nat) : Decidable (rectGrid grid w) := by
  unfold rectGrid
  infer_instance

theorem rect_row (grid : List (List α)) (w : Nat) (h : rectGrid grid w)
    (y : Nat) (hy : y < grid.length) : (rowGet grid y).length = w := by
  have hg : rowGet grid y = grid[y] := by
    simp [rowGet, List.getElem?_eq_getElem hy]
  rw [hg]
  exact h _ (List.getElem_mem hy)

/-- On a rectangular grid, a successful step lands on an in-bounds
position. -/
theorem step_stays_inB (grid : List (List α)) (w : Nat)
    (h : rectGrid grid w) (d : Direction) (x y : Nat)
    (hy : y < grid.length) (hx : x < (rowGet grid y).length)
    (n : Neighbor) (hstep : neighbor_in_direction grid d x y = some n) :
    n.position.2 < grid.length ∧
      n.position.1 < (rowGet grid n.position.2).length := by
  obtain ⟨rfl, hall⟩ := nid_some_pos grid d x y n hstep
  have hw := rect_row grid w h y hy
  cases d with
  | Up =>
    simp only [Neighbor.new, destPos, stepAllowed] at hall ⊢
    refine ⟨by omega, ?_⟩
    rw [rect_row grid w h (y - 1) (by omega)]
    omega
  | Down =>
    simp only [Neighbor.new, destPos, stepAllowed] at hall ⊢
    refine ⟨hall, ?_⟩
    rw [rect_row grid w h (y + 1) hall]
    omega
  | Left =>
    simp only [Neighbor.new, destPos, stepAllowed] at hall ⊢
    exact ⟨hy, by omega⟩
  | Right =>
    simp only [Neighbor.new, destPos, stepAllowed] at hall ⊢
    exact ⟨hy, hall⟩
  | UpperLeft =>
    simp only [Neighbor.new, destPos, stepAllowed] at hall ⊢
    refine ⟨by omega, ?_⟩
    rw [rect_row grid w h (y - 1) (by omega)]
    omega
  | UpperRight =>
    simp only [Neighbor.new, destPos, stepAllowed] at hall ⊢
    exact ⟨by omega, hall.2⟩
  | LowerLeft =>
    simp only [Neighbor.new, destPos, stepAllowed] at hall ⊢
    refine ⟨hall.1, ?_⟩
    rw [rect_row grid w h (y + 1) hall.1]
    omega
  | LowerRight =>
    simp only [Neighbor.new, destPos, stepAllowed] at hall ⊢
    exact ⟨hall.1, hall.2⟩

/-- On a rectangular grid `Neighbor::next` needs no extra condition. -/
theorem next_eq_step_rect (grid : List (List α)) (w : Nat)
    (h : rectGrid grid w) (d : Direction) (x y : Nat)
    (hy : y < grid.length) (hx : x < (rowGet grid y).length) :
    Neighbor.next (Neighbor.new d x y) grid =
      neighbor_in_direction grid d x y := by
  refine next_eq_step grid d x y hy hx (fun _ hlen => ?_)
  rw [rect_row grid w h (y + 1) hlen]
  rw [rect_row grid w h y hy] at hx
  exact hx

/-- On a rectangular grid, an in-bounds cell read succeeds. -/
theorem gridGet_isSome (grid : List (List Char)) (x y : Nat)
    (hy : y < grid.length) (hx : x < (rowGet grid y).length) :
    (gridGet grid x y).isSome := by
  have hrow : grid[y]? = some (rowGet grid y) := by
    simp [rowGet, List.getElem?_eq_getElem hy]
  simp [gridGet, hrow, List.getElem?_eq_getElem hx]

/-- Walking a ray from an in-bounds position on a rectangular grid never
panics. -/
theorem walkRay_isSome (grid : List (List Char)) (w : Nat)
    (h : rectGrid grid w) :
    ∀ (rest : List Char) (nb : Neighbor),
      nb.position.2 < grid.length →
      nb.position.1 < (rowGet grid nb.position.2).length →
      (walkRay grid rest nb).isSome
  | [], _, _, _ => by simp [walkRay]
  | e :: rest, nb, hy, hx => by
    obtain ⟨d, x, y⟩ := nb
    rw [walkRay]
    split
    · rename_i heq
      have hs := gridGet_isSome grid x y hy hx
      rw [heq] at hs
      simp at hs
    · rename_i a heq
      split
      · split
        · rename_i hae n hn
          have hstep : neighbor_in_direction grid d x y = some n := by
            rw [← next_eq_step_rect grid w h d x y hy hx]
            exact hn
          obtain ⟨hy2, hx2⟩ := step_stays_inB grid w h d x y hy hx n hstep
          exact walkRay_isSome grid w h rest n hy2 hx2
        · simp
      · simp

/-- Summing ray results over in-bounds ray starts never panics. -/
theorem countRays_isSome (grid : List (List Char)) (w : Nat)
    (h : rectGrid grid w) (rest : List Char) :
    ∀ l : List Neighbor,
      (∀ nb ∈ l, nb.position.2 < grid.length ∧
        nb.position.1 < (rowGet grid nb.position.2).length) →
      (countRays grid rest l).isSome
  | [], _ => by simp [countRays]
  | nb :: nbs, hl => by
    obtain ⟨hy, hx⟩ := hl nb (by simp)
    obtain ⟨b, hb⟩ :=
      Option.isSome_iff_exists.1 (walkRay_isSome grid w h rest nb hy hx)
    obtain ⟨k, hk⟩ := Option.isSome_iff_exists.1
      (countRays_isSome grid w h rest nbs (fun m hm => hl m (by simp [hm])))
    simp [countRays, hb, hk]

/-- All enumerated neighbors of an in-bounds cell of a rectangular grid
are in bounds. -/
theorem neighbors_inB (grid : List (List α)) (w : Nat)
    (h : rectGrid grid w) (x y : Nat)
    (hy : y < grid.length) (hx : x < (rowGet grid y).length)
    (b : Bool) (n : Neighbor) (hn : n ∈ neighbors grid x y b) :
    n.position.2 < grid.length ∧
      n.position.1 < (rowGet grid n.position.2).length := by
  rw [neighbors] at hn
  obtain ⟨d, -, hnd⟩ := List.mem_filterMap.1 hn
  exact step_stays_inB grid w h d x y hy hx n hnd

/-- `optSum` of a list of successful counts is successful. -/
theorem optSum_isSome :
    ∀ l : List (Option Nat), (∀ o ∈ l, o.isSome) → (optSum l).isSome
  | [], _ => by simp [optSum]
  | o :: os, hl => by
    obtain ⟨k, hk⟩ := Option.isSome_iff_exists.1 (hl o (by simp))
    obtain ⟨m, hm⟩ := Option.isSome_iff_exists.1
      (optSum_isSome os (fun p hp => hl p (by simp [hp])))
    simp [optSum, hk, hm]

/-- Per-cell scanning of an in-bounds cell of a rectangular grid never
panics (for a nonempty word). -/
theorem xmasOccurrencesFrom_isSome (grid : List (List Char)) (w : Nat)
    (h : rectGrid grid w) (w0 : Char) (rest : List Char) (x y : Nat)
    (hy : y < grid.length) (hx : x < (rowGet grid y).length) :
    (xmasOccurrencesFrom grid (w0 :: rest) x y).isSome := by
  obtain ⟨a, ha⟩ := Option.isSome_iff_exists.1 (gridGet_isSome grid x y hy hx)
  by_cases hc : a = w0
  · subst hc
    have hcr := countRays_isSome grid w h rest (neighbors grid x y true)
      (fun nb hnb => neighbors_inB grid w h x y hy hx true nb hnb)
    simpa [xmasOccurrencesFrom, ha] using hcr
  · simp [xmasOccurrencesFrom, ha, hc]

/-- C6: as stated the claim is false. On the ragged grid
`[['S'], ['.', '.', 'X']]` the cell `(2, 1)` holds `'X'`; its `Up`
neighbor is `(2, 0)`, which lies outside row 0's length, and the ray
walk reads it — the Rust code panics (modelled as `none`), both per
cell and in the whole-grid count. -/
theorem claim_C6_counterexample :
    xmasOccurrencesFrom [['S'], ['.', '.', 'X']] xmasWord 2 1 = none ∧
    countXmasOccurrences [['S'], ['.', '.', 'X']] xmasWord = none := by
  decide

/-- C6 (amended): on rectangular grids (every row of length `w`) and a
nonempty word, the scan never reads out of bounds: `xmas_occurrences_from`
succeeds on every in-bounds cell and `count_xmas_occurrences` succeeds. -/
theorem claim_C6_no_out_of_bounds (grid : List (List Char)) (w : Nat)
    (hrect : rectGrid grid w) (w0 : Char) (rest : List Char) :
    (∀ x y, y < grid.length → x < (rowGet grid y).length →
      (xmasOccurrencesFrom grid (w0 :: rest) x y).isSome) ∧
    (countXmasOccurrences grid (w0 :: rest)).isSome := by
  refine ⟨fun x y hy hx => xmasOccurrencesFrom_isSome grid w hrect w0 rest x y hy hx, ?_⟩
  rw [countXmasOccurrences]
  apply optSum_isSome
  intro o ho
  obtain ⟨y, hy, rfl⟩ := List.mem_map.1 ho
  have hy' := List.mem_range.1 hy
  apply optSum_isSome
  intro p hp
  obtain ⟨x, hx, rfl⟩ := List.mem_map.1 hp
  exact xmasOccurrencesFrom_isSome grid w hrect w0 rest x y
    hy' (List.mem_range.1 hx)

/-- Witness for C6's amended theorem on a concrete rectangular grid. -/
theorem claim_C6_no_out_of_bounds_witness :
    (∀ x y, y < ([['X', 'M'], ['A', 'S']] : List (List Char)).length →
      x < (rowGet [['X', 'M'], ['A', 'S']] y).length →
      (xmasOccurrencesFrom [['X', 'M'], ['A', 'S']] ('X' :: ['M', 'A', 'S']) x y).isSome) ∧
    (countXmasOccurrences [['X', 'M'], ['A', 'S']] ('X' :: ['M', 'A', 'S'])).isSome :=
  claim_C6_no_out_of_bounds [['X', 'M'], ['A', 'S']] 2
    (by intro r hr; fin_cases hr <;> rfl) 'X' ['M', 'A', 'S']

/-! ## day06: guard simulator

`GuardState`, `LabState`, `LabState::advance` and `LabState::try_from`
from `src/day06/src/main.rs`. `advance`'s inner `loop` walks the guard
forward along its heading; each iteration either moves one step, turns
(obstacle), or terminates (boundary), so it is well-founded on the
distance to the grid edge in the heading's primary axis. Reachable
panics (`visited[y][x]`, `obstacles[y][x]`, and `rotate`'s
`unreachable!` on diagonal headings) are modelled as explicit `Fail`
errors distinct from the returned `anyhow` error. -/

/-- How `LabState::advance` can fail: the returned `Err("Guard has left")`,
a panicking grid index, or `GuardState::rotate`'s `unreachable!`. -/
inductive Fail where
  | guardLeft
  | indexPanic
  | rotatePanic
deriving DecidableEq, Repr

/-- `GuardState` from `src/day06/src/main.rs:9-14`. -/
structure GuardState where
  direction : Direction
  position : Nat × Nat
  has_left : Bool
deriving DecidableEq, Repr

/-- `GuardState::new(x, y)`. -/
def GuardState.new (x y : Nat) : GuardState :=
  ⟨.Up, (x, y), false⟩

/-- The direction map of `GuardState::rotate`
(`src/day06/src/main.rs:25-33`); `none` models the `unreachable!` arm
for diagonal headings. -/
def rotate : Direction → Option Direction
  | .Up => some .Right
  | .Down => some .Left
  | .Left => some .Up
  | .Right => some .Down
  | _ => none

/-- `LabState` from `src/day06/src/main.rs:36-41`. -/
structure LabState where
  obstacles : List (List Bool)
  visited : List (List Bool)
  guard : GuardState
deriving DecidableEq, Repr

/-- The cell of a boolean layer at `(x, y)`; `none` when the Rust index
`layer[y][x]` would panic. -/
def cellAt (g : List (List Bool)) (x y : Nat) : Option Bool :=
  g[y]?.bind (fun r => r[x]?)

/-- `layer[y][x] = true` (meaningful only when `(x, y)` is in bounds,
which `advanceWalk` checks first). -/
def setCell (g : List (List Bool)) (y x : Nat) : List (List Bool) :=
  g.set y ((rowGet g y).set x true)

/-- `LabState::visited_positions` (`src/day06/src/main.rs:44-49`). -/
def visited_positions (s : LabState) : Nat :=
  (s.visited.map (fun r => (r.map (fun v => if v then 1 else 0)).sum)).sum

/-- Ray-distance to the grid edge along `d`'s primary axis; the `loop`
in `advance` strictly decreases it at each non-terminating iteration. -/
def walkMeasure (obstacles : List (List Bool)) (d : Direction)
    (x y : Nat) : Nat :=
  match d with
  | .Up | .UpperLeft | .UpperRight => y
  | .Down | .LowerLeft | .LowerRight => obstacles.length - y
  | .Left => x
  | .Right => (rowGet obstacles y).length - x

theorem nid_measure_lt (obstacles : List (List Bool)) (d : Direction)
    (x y : Nat) (n : Neighbor)
    (h : neighbor_in_direction obstacles d x y = some n) :
    walkMeasure obstacles d n.position.1 n.position.2 <
      walkMeasure obstacles d x y := by
  obtain ⟨rfl, hall⟩ := nid_some_pos obstacles d x y n h
  cases d <;>
    simp only [Neighbor.new, destPos, stepAllowed, walkMeasure] at hall ⊢ <;>
    omega

/-- The `loop` body of `LabState::advance` (`src/day06/src/main.rs:75-96`):
mark the current cell visited, step ahead; on a boundary set `has_left`,
on an obstacle rotate and stop, otherwise move and continue. -/
def advanceWalk (obstacles : List (List Bool)) (d : Direction)
    (visited : List (List Bool)) (x y : Nat) :
    Except Fail (List (List Bool) × GuardState) :=
  if (cellAt visited x y).isSome then
    let visited1 := setCell visited y x
    if nid_panics obstacles d x y then .error .indexPanic
    else
      match h : neighbor_in_direction obstacles d x y with
      | none => .ok (visited1, ⟨d, (x, y), true⟩)
      | some n =>
        match cellAt obstacles n.position.1 n.position.2 with
        | none => .error .indexPanic
        | some true =>
          match rotate d with
          | some d2 => .ok (visited1, ⟨d2, (x, y), false⟩)
          | none => .error .rotatePanic
        | some false => advanceWalk obstacles d visited1 n.position.1 n.position.2
  else .error .indexPanic
termination_by walkMeasure obstacles d x y
decreasing_by exact nid_measure_lt obstacles d x y n h

/-- `LabState::advance` (`src/day06/src/main.rs:66-103`). -/
def advance (s : LabState) : Except Fail LabState :=
  if s.guard.has_left then .error .guardLeft
  else
    match advanceWalk s.obstacles s.guard.direction s.visited
        s.guard.position.1 s.guard.position.2 with
    | .error e => .error e
    | .ok (v, g) => .ok ⟨s.obstacles, v, g⟩

/-- `n` successful `advance` steps. -/
def advanceN : Nat → LabState → Except Fail LabState
  | 0, s => .ok s
  | n + 1, s =>
    match advance s with
    | .error e => .error e
    | .ok s2 => advanceN n s2

/-- The per-character step of `LabState::try_from`'s inner loop
(`src/day06/src/main.rs:141-151`), building one obstacle row and one
visited row and threading the (last-marker-wins) guard. -/
def parseCells (y : Nat) :
    List Char → Nat → Option GuardState →
    Except String (List Bool × List Bool × Option GuardState)
  | [], _, g => .ok ([], [], g)
  | c :: cs, x, g =>
    if c = '.' then
      match parseCells y cs (x + 1) g with
      | .error e => .error e
      | .ok (os, vs, g2) => .ok (false :: os, false :: vs, g2)
    else if c = '#' then
      match parseCells y cs (x + 1) g with
      | .error e => .error e
      | .ok (os, vs, g2) => .ok (true :: os, false :: vs, g2)
    else if c = '^' then
      match parseCells y cs (x + 1) (some (GuardState.new x y)) with
      | .error e => .error e
      | .ok (os, vs, g2) => .ok (false :: os, true :: vs, g2)
    else
      .error "Invalid character in grid"

/-- The per-line loop of `LabState::try_from`
(`src/day06/src/main.rs:137-155`). -/
def parseRows :
    List (List Char) → Nat → Option GuardState →
    Except String (List (List Bool) × List (List Bool) × Option GuardState)
  | [], _, g => .ok ([], [], g)
  | l :: ls, y, g =>
    match parseCells y l 0 g with
    | .error e => .error e
    | .ok (o, v, g1) =>
      match parseRows ls (y + 1) g1 with
      | .error e => .error e
      | .ok (os, vs, g2) => .ok (o :: os, v :: vs, g2)

/-- `LabState::try_from` (`src/day06/src/main.rs:128-163`). -/
def labFromLines (ls : List (List Char)) : Except String LabState :=
  match parseRows ls 0 none with
  | .error e => .error e
  | .ok (_, _, none) => .error "Guard not found"
  | .ok (os, vs, some g) => .ok ⟨os, vs, g⟩

/-- The characters `LabState::try_from` accepts. -/
def validChar (c : Char) : Prop :=
  c = '.' ∨ c = '#' ∨ c = '^'

instance (c : Char) : Decidable (validChar c) := by
  unfold validChar
  infer_instance

/-- Number of guard-start markers in the input. -/
def caretCount (ls : List (List Char)) : Nat :=
  (ls.map (fun l => l.count '^')).sum

/-- Index of the last `'^'` in a row, if any. -/
def lastCaret : List Char → Option Nat
  | [] => none
  | c :: cs =>
    match lastCaret cs with
    | some i => some (i + 1)
    | none => if c = '^' then some 0 else none

/-- Position `(x, y)` of the last `'^'` in the input, if any. -/
def lastCaretPos : List (List Char) → Option (Nat × Nat)
  | [] => none
  | l :: ls =>
    match lastCaretPos ls with
    | some (x, y) => some (x, y + 1)
    | none =>
      match lastCaret l with
      | some i => some (i, 0)
      | none => none

/-- Heading after `k` clockwise rotations (through `GuardState::rotate`'s
`Up → Right → Down → Left → Up` cycle). -/
def dirAfter : Nat → Direction → Direction
  | 0, d => d
  | k + 1, d =>
    match rotate d with
    | some d2 => dirAfter k d2
    | none => d

example :
    labFromLines [['.', '^'], ['#', '.']] =
      .ok ⟨[[false, false], [true, false]],
           [[false, true], [false, false]],
           ⟨.Up, (1, 0), false⟩⟩ := rfl

example : labFromLines [['.', 'x']] = .error "Invalid character in grid" := rfl

example : labFromLines [['.', '.']] = .error "Guard not found" := rfl

theorem parseCells_eq (y : Nat) :
    ∀ (cs : List Char) (x : Nat) (g : Option GuardState),
      (∀ c ∈ cs, validChar c) →
      parseCells y cs x g =
        .ok (cs.map (fun c => c == '#'), cs.map (fun c => c == '^'),
          match lastCaret cs with
          | some i => some (GuardState.new (x + i) y)
          | none => g)
  | [], x, g, _ => rfl
  | c :: cs, x, g, hv => by
    have hc := hv c (by simp)
    have ih := fun g2 => parseCells_eq y cs (x + 1) g2
      (fun c hc => hv c (by simp [hc]))
    rcases hc with hc | hc | hc <;> subst hc
    · rw [parseCells, if_pos rfl, ih g]
      cases hlc : lastCaret cs with
      | none => simp [lastCaret, hlc]
      | some i =>
        have hx : x + 1 + i = x + (i + 1) := by omega
        simp [lastCaret, hlc, hx]
    · rw [parseCells, if_neg (by decide), if_pos rfl, ih g]
      cases hlc : lastCaret cs with
      | none => simp [lastCaret, hlc]
      | some i =>
        have hx : x + 1 + i = x + (i + 1) := by omega
        simp [lastCaret, hlc, hx]
    · rw [parseCells, if_neg (by decide), if_neg (by decide), if_pos rfl,
        ih (some (GuardState.new x y))]
      cases hlc : lastCaret cs with
      | none => simp [lastCaret, hlc]
      | some i =>
        have hx : x + 1 + i = x + (i + 1) := by omega
        simp [lastCaret, hlc, hx]

theorem parseCells_err (y : Nat) :
    ∀ (cs : List Char) (x : Nat) (g : Option GuardState),
      (∃ c ∈ cs, ¬ validChar c) →
      ∃ e, parseCells y cs x g = .error e
  | [], _, _, hv => by simp at hv
  | c :: cs, x, g, hv => by
    by_cases hc : validChar c
    · have hrest : ∃ c ∈ cs, ¬ validChar c := by
        obtain ⟨c2, hc2, hval⟩ := hv
        rcases List.mem_cons.1 hc2 with rfl | hmem
        · exact absurd hc hval
        · exact ⟨c2, hmem, hval⟩
      rcases hc with hc | hc | hc <;> subst hc
      · obtain ⟨e, he⟩ := parseCells_err y cs (x + 1) g hrest
        exact ⟨e, by rw [parseCells, if_pos rfl, he]⟩
      · obtain ⟨e, he⟩ := parseCells_err y cs (x + 1) g hrest
        exact ⟨e, by rw [parseCells, if_neg (by decide), if_pos rfl, he]⟩
      · obtain ⟨e, he⟩ :=
          parseCells_err y cs (x + 1) (some (GuardState.new x y)) hrest
        exact ⟨e, by rw [parseCells, if_neg (by decide), if_neg (by decide),
          if_pos rfl, he]⟩
    · refine ⟨"Invalid character in grid", ?_⟩
      have h1 : ¬ c = '.' := fun h => hc (Or.inl h)
      have h2 : ¬ c = '#' := fun h => hc (Or.inr (Or.inl h))
      have h3 : ¬ c = '^' := fun h => hc (Or.inr (Or.inr h))
      rw [parseCells, if_neg h1, if_neg h2, if_neg h3]

theorem parseRows_eq :
    ∀ (ls : List (List Char)) (y : Nat) (g : Option GuardState),
      (∀ l ∈ ls, ∀ c ∈ l, validChar c) →
      parseRows ls y g =
        .ok (ls.map (fun l => l.map (fun c => c == '#')),
          ls.map (fun l => l.map (fun c => c == '^')),
          match lastCaretPos ls with
          | some (i, j) => some (GuardState.new i (y + j))
          | none => g)
  | [], y, g, _ => rfl
  | l :: ls, y, g, hv => by
    have hrow := parseCells_eq y l 0 g (hv l (by simp))
    rw [parseRows, hrow]
    cases hlc : lastCaret l with
    | none =>
      dsimp only
      rw [parseRows_eq ls (y + 1) g (fun l2 hl2 => hv l2 (by simp [hl2]))]
      cases hlp : lastCaretPos ls with
      | none => simp [lastCaretPos, hlp, hlc]
      | some p =>
        obtain ⟨i, j⟩ := p
        have hyj : y + 1 + j = y + (j + 1) := by omega
        simp [lastCaretPos, hlp, hlc, hyj]
    | some i0 =>
      dsimp only
      rw [parseRows_eq ls (y + 1) (some (GuardState.new (0 + i0) y))
        (fun l2 hl2 => hv l2 (by simp [hl2]))]
      cases hlp : lastCaretPos ls with
      | none => simp [lastCaretPos, hlp, hlc]
      | some p =>
        obtain ⟨i, j⟩ := p
        have hyj : y + 1 + j = y + (j + 1) := by omega
        simp [lastCaretPos, hlp, hlc, hyj]

theorem parseRows_err :
    ∀ (ls : List (List Char)) (y : Nat) (g : Option GuardState),
      (∃ l ∈ ls, ∃ c ∈ l, ¬ validChar c) →
      ∃ e, parseRows ls y g = .error e
  | [], _, _, hv => by simp at hv
  | l :: ls, y, g, hv => by
    by_cases hl : ∀ c ∈ l, validChar c
    · have hrest : ∃ l2 ∈ ls, ∃ c ∈ l2, ¬ validChar c := by
        obtain ⟨l2, hl2, c, hc, hval⟩ := hv
        rcases List.mem_cons.1 hl2 with rfl | hmem
        · exact absurd (hl c hc) hval
        · exact ⟨l2, hmem, c, hc, hval⟩
      rw [parseRows, parseCells_eq y l 0 g hl]
      obtain ⟨e, he⟩ := parseRows_err ls (y + 1)
        (match lastCaret l with
         | some i => some (GuardState.new (0 + i) y)
         | none => g) hrest
      exact ⟨e, by dsimp only; rw [he]⟩
    · push_neg at hl
      obtain ⟨c, hc, hval⟩ := hl
      obtain ⟨e, he⟩ := parseCells_err y l 0 g ⟨c, hc, hval⟩
      exact ⟨e, by rw [parseRows, he]⟩

theorem lastCaret_isSome_iff :
    ∀ cs : List Char, (lastCaret cs).isSome ↔ 0 < cs.count '^'
  | [] => by simp [lastCaret]
  | c :: cs => by
    rw [lastCaret]
    cases hlc : lastCaret cs with
    | some i =>
      have hih := (lastCaret_isSome_iff cs).1 (by simp [hlc])
      simp only [Option.isSome_some, true_iff]
      rw [List.count_cons]
      omega
    | none =>
      have hih : cs.count '^' = 0 := by
        by_contra hne
        have := (lastCaret_isSome_iff cs).2 (by omega)
        rw [hlc] at this
        simp at this
      by_cases hc : c = '^'
      · simp [hc, List.count_cons, hih]
      · have hc2 : ¬ ('^' = c) := fun h => hc h.symm
        simp [hc, List.count_cons, hih, hc2]

theorem lastCaretPos_isSome_iff :
    ∀ ls : List (List Char), (lastCaretPos ls).isSome ↔ 0 < caretCount ls
  | [] => by simp [lastCaretPos, caretCount]
  | l :: ls => by
    rw [lastCaretPos]
    have hc : caretCount (l :: ls) = l.count '^' + caretCount ls := by
      simp [caretCount]
    cases hlp : lastCaretPos ls with
    | some p =>
      obtain ⟨i, j⟩ := p
      have hih := (lastCaretPos_isSome_iff ls).1 (by simp [hlp])
      simp [hc]
      omega
    | none =>
      have hih : caretCount ls = 0 := by
        by_contra hne
        have := (lastCaretPos_isSome_iff ls).2 (by omega)
        rw [hlp] at this
        simp at this
      cases hlc : lastCaret l with
      | some i =>
        have := (lastCaret_isSome_iff l).1 (by simp [hlc])
        simp only [Option.isSome_some, true_iff]
        rw [hc]
        omega
      | none =>
        have hl0 : l.count '^' = 0 := by
          by_contra hne
          have := (lastCaret_isSome_iff l).2 (by omega)
          rw [hlc] at this
          simp at this
        simp [hc, hih, hl0]

/-- C7: as stated the claim is false. An input with two `'^'` markers is
not rejected: parsing `[['^', '^']]` succeeds, taking the last marker's
position `(1, 0)` (each marker simply overwrites the previous guard). -/
theorem claim_C7_counterexample :
    caretCount [['^', '^']] = 2 ∧
    labFromLines [['^', '^']] =
      .ok ⟨[[false, false]], [[true, true]],
        ⟨.Up, (1, 0), false⟩⟩ :=
  ⟨rfl, rfl⟩

/-- C7 (amended): parsing succeeds exactly when every character is one of
`'.'`, `'#'`, `'^'` and at least one `'^'` is present (zero markers or an
invalid character fail, with no partial grid; multiple markers do not
fail); on success the guard's heading is `Up`, it has not left, and its
position is that of the last `'^'` marker in the input. -/
theorem claim_C7_parse (ls : List (List Char)) :
    ((∃ s, labFromLines ls = .ok s) ↔
      ((∀ l ∈ ls, ∀ c ∈ l, validChar c) ∧ 0 < caretCount ls)) ∧
    (∀ s, labFromLines ls = .ok s →
      s.guard.direction = Direction.Up ∧ s.guard.has_left = false ∧
      lastCaretPos ls = some s.guard.position) := by
  by_cases hall : ∀ l ∈ ls, ∀ c ∈ l, validChar c
  · have hrows := parseRows_eq ls 0 none hall
    cases hlp : lastCaretPos ls with
    | none =>
      have hcc : ¬ 0 < caretCount ls := by
        intro hpos
        have := (lastCaretPos_isSome_iff ls).2 hpos
        rw [hlp] at this
        simp at this
      rw [hlp] at hrows
      constructor
      · constructor
        · rintro ⟨s, hs⟩
          rw [labFromLines, hrows] at hs
          cases hs
        · rintro ⟨-, hpos⟩
          exact absurd hpos hcc
      · intro s hs
        rw [labFromLines, hrows] at hs
        cases hs
    | some p =>
      obtain ⟨i, j⟩ := p
      rw [hlp] at hrows
      have hcc : 0 < caretCount ls := by
        have := (lastCaretPos_isSome_iff ls).1 (by simp [hlp])
        exact this
      constructor
      · constructor
        · intro _
          exact ⟨hall, hcc⟩
        · intro _
          exact ⟨_, by rw [labFromLines, hrows]⟩
      · intro s hs
        rw [labFromLines, hrows] at hs
        cases hs
        refine ⟨rfl, rfl, ?_⟩
        simp [GuardState.new, hlp]
  · have herr : ∃ l ∈ ls, ∃ c ∈ l, ¬ validChar c := by
      push_neg at hall
      exact hall
    obtain ⟨e, he⟩ := parseRows_err ls 0 none herr
    constructor
    · constructor
      · rintro ⟨s, hs⟩
        rw [labFromLines, he] at hs
        cases hs
      · rintro ⟨hv, -⟩
        exact absurd hv hall
    · intro s hs
      rw [labFromLines, he] at hs
      cases hs

/-- Witness for the parse characterization at a concrete input. -/
theorem claim_C7_parse_witness :
    (LabState.mk [[false, false]] [[false, true]]
      ⟨.Up, (1, 0), false⟩).guard.direction = Direction.Up ∧
    (LabState.mk [[false, false]] [[false, true]]
      ⟨.Up, (1, 0), false⟩).guard.has_left = false ∧
    lastCaretPos [['.', '^']] =
      some (LabState.mk [[false, false]] [[false, true]]
        ⟨.Up, (1, 0), false⟩).guard.position :=
  (claim_C7_parse [['.', '^']]).2
    ⟨[[false, false]], [[false, true]], ⟨.Up, (1, 0), false⟩⟩ rfl

theorem cellAt_isSome_iff (g : List (List Bool)) (x y : Nat) :
    (cellAt g x y).isSome ↔ (y < g.length ∧ x < (rowGet g y).length) := by
  cases h : g[y]? with
  | none =>
    simp [cellAt, h, rowGet]
  | some r =>
    have hy := (isSome_iff_lt g y).1 (by simp [h])
    have hr := rowGet_eq g y r h
    simp [cellAt, h, hr, isSome_iff_lt, hy]

theorem setCell_length (g : List (List Bool)) (y x : Nat) :
    (setCell g y x).length = g.length := by
  simp [setCell]

theorem setCell_rect (g : List (List Bool)) (w : Nat) (h : rectGrid g w)
    (y x : Nat) (hy : y < g.length) : rectGrid (setCell g y x) w := by
  intro r hr
  rcases List.mem_or_eq_of_mem_set hr with hm | hm
  · exact h r hm
  · rw [hm, List.length_set]
    exact rect_row g w h y hy

theorem rotate_of_cardinal (d : Direction) (h : isCardinal d = true) :
    ∃ d2, rotate d = some d2 ∧ isCardinal d2 = true := by
  cases d <;> first
    | exact ⟨_, rfl, rfl⟩
    | simp [isCardinal] at h

/-- On a rectangular lab with matching layers, an in-bounds guard with a
cardinal heading always completes a walk successfully. -/
theorem advanceWalk_ok (obstacles : List (List Bool)) (w : Nat)
    (hrect : rectGrid obstacles w) (d : Direction)
    (hcard : isCardinal d = true) (visited : List (List Bool)) (x y : Nat)
    (hrv : rectGrid visited w) (hlen : visited.length = obstacles.length)
    (hy : y < obstacles.length) (hx : x < w) :
    ∃ r, advanceWalk obstacles d visited x y = .ok r := by
  have hvis : (cellAt visited x y).isSome = true := by
    rw [cellAt_isSome_iff]
    refine ⟨by omega, ?_⟩
    rw [rect_row visited w hrv y (by omega)]
    exact hx
  have hnp : ¬ nid_panics obstacles d x y := by
    cases d <;> simp [nid_panics, isCardinal] at hcard ⊢ <;> omega
  rw [advanceWalk, if_pos hvis, if_neg hnp]
  split
  · exact ⟨_, rfl⟩
  · rename_i n hstep
    have hxrow : x < (rowGet obstacles y).length := by
      rw [rect_row obstacles w hrect y hy]
      exact hx
    obtain ⟨hy2, hx2⟩ := step_stays_inB obstacles w hrect d x y hy hxrow n hstep
    have hx2w : n.position.1 < w := by
      rw [← rect_row obstacles w hrect n.position.2 hy2]
      exact hx2
    split
    · rename_i hobs
      exfalso
      have hin : (cellAt obstacles n.position.1 n.position.2).isSome = true := by
        rw [cellAt_isSome_iff]
        exact ⟨hy2, hx2⟩
      rw [hobs] at hin
      cases hin
    · obtain ⟨d2, hd2, -⟩ := rotate_of_cardinal d hcard
      split
      · exact ⟨_, rfl⟩
      · rename_i hrot
        rw [hd2] at hrot
        cases hrot
    · have hrv1 : rectGrid (setCell visited y x) w :=
        setCell_rect visited w hrv y x (by omega)
      have hlen1 : (setCell visited y x).length = obstacles.length := by
        rw [setCell_length]
        exact hlen
      exact advanceWalk_ok obstacles w hrect d hcard (setCell visited y x)
        n.position.1 n.position.2 hrv1 hlen1 hy2 hx2w
termination_by walkMeasure obstacles d x y
decreasing_by
  apply nid_measure_lt obstacles d x y
  assumption

/-- C8: as stated the claim is false in its second half. Advancing a
guard with `has_left = true` does error, but a guard with
`has_left = false` need not return `Ok`: on a ragged lab the walk can
read an obstacle cell outside its row and panic. Here the guard at
`(2, 1)` heading `Up` steps to `(2, 0)` and `obstacles[0][2]` panics. -/
theorem claim_C8_counterexample :
    (LabState.mk [[true], [false, false, false]]
      [[false], [false, false, false]] ⟨.Up, (2, 1), false⟩).guard.has_left
        = false ∧
    advance ⟨[[true], [false, false, false]],
      [[false], [false, false, false]], ⟨.Up, (2, 1), false⟩⟩ =
      .error .indexPanic := by
  refine ⟨rfl, ?_⟩
  have hw : advanceWalk [[true], [false, false, false]] .Up
      [[false], [false, false, false]] 2 1 = .error .indexPanic := by
    rw [advanceWalk]
    simp [cellAt, setCell, nid_panics, neighbor_in_direction, rotate, rowGet,
      Neighbor.new]
  rw [advance, if_neg (by decide), hw]

/-- C8 (amended): advancing a guard that has already left always fails
with the `Guard has left` error (no state is produced, so nothing is
modified); advancing a guard that has not left returns `Ok` provided the
lab is rectangular with matching layer shapes, the guard is in bounds,
and its heading is cardinal. -/
theorem claim_C8_advance (s : LabState) (w : Nat) :
    (s.guard.has_left = true → advance s = .error Fail.guardLeft) ∧
    (s.guard.has_left = false → rectGrid s.obstacles w →
      rectGrid s.visited w → s.visited.length = s.obstacles.length →
      isCardinal s.guard.direction = true →
      s.guard.position.2 < s.obstacles.length → s.guard.position.1 < w →
      ∃ s2, advance s = .ok s2) := by
  constructor
  · intro h
    rw [advance, if_pos h]
  · intro hleft hrect hrv hlen hcard hy hx
    obtain ⟨r, hr⟩ := advanceWalk_ok s.obstacles w hrect s.guard.direction
      hcard s.visited s.guard.position.1 s.guard.position.2 hrv hlen hy hx
    obtain ⟨v, g⟩ := r
    rw [advance, if_neg (by rw [hleft]; simp), hr]
    exact ⟨_, rfl⟩

/-- Witness for C8's amended theorem: both halves at concrete labs. -/
theorem claim_C8_advance_witness :
    advance ⟨[[false]], [[false]], ⟨.Up, (0, 0), true⟩⟩ =
      .error Fail.guardLeft ∧
    ∃ s2, advance ⟨[[false]], [[false]], ⟨.Up, (0, 0), false⟩⟩ = .ok s2 :=
  ⟨(claim_C8_advance ⟨[[false]], [[false]], ⟨.Up, (0, 0), true⟩⟩ 1).1 rfl,
   (claim_C8_advance ⟨[[false]], [[false]], ⟨.Up, (0, 0), false⟩⟩ 1).2 rfl
     (by decide) (by decide) rfl rfl (by decide) (by decide)⟩

theorem set_getElem_self (l : List α) (n : Nat) (a : α)
    (h : l[n]? = some a) : l.set n a = l := by
  apply List.ext_getElem?
  intro i
  rw [List.getElem?_set]
  by_cases hni : n = i
  · rw [if_pos hni,
      if_pos ((isSome_iff_lt l n).1 (by simp [h])), ← hni, h]
  · rw [if_neg hni]

theorem setCell_id (V : List (List Bool)) (x y : Nat)
    (h : cellAt V x y = some true) : setCell V y x = V := by
  rw [cellAt] at h
  cases hr : V[y]? with
  | none => rw [hr] at h; cases h
  | some r =>
    rw [hr] at h
    rw [setCell, rowGet_eq V y r hr, set_getElem_self r x true h,
      set_getElem_self V y r hr]

/-- A fully enclosed guard with a cardinal heading rotates in place:
one `advance` only turns clockwise and leaves everything else alone. -/
theorem advance_enclosed_step (O V : List (List Bool)) (x y : Nat)
    (d : Direction) (hcard : isCardinal d = true)
    (hvis : cellAt V x y = some true)
    (hencl : ∀ d2, isCardinal d2 = true →
      ∃ n, neighbor_in_direction O d2 x y = some n ∧
        cellAt O n.position.1 n.position.2 = some true) :
    ∃ d2, rotate d = some d2 ∧
      advance ⟨O, V, ⟨d, (x, y), false⟩⟩ = .ok ⟨O, V, ⟨d2, (x, y), false⟩⟩ := by
  obtain ⟨d2, hd2, -⟩ := rotate_of_cardinal d hcard
  obtain ⟨n, hn, hobs⟩ := hencl d hcard
  have hyO : y + 1 < O.length := by
    obtain ⟨n2, hn2, -⟩ := hencl .Down rfl
    exact (nid_some_pos O .Down x y n2 hn2).2
  have hnp : ¬ nid_panics O d x y := by
    cases d <;> simp [nid_panics, isCardinal] at hcard ⊢ <;> omega
  have hset : setCell V y x = V := setCell_id V x y hvis
  refine ⟨d2, hd2, ?_⟩
  have hwalk : advanceWalk O d V x y = .ok (V, ⟨d2, (x, y), false⟩) := by
    rw [advanceWalk, if_pos (by rw [hvis]; rfl), if_neg hnp]
    split
    · rename_i hnone
      rw [hn] at hnone
      cases hnone
    · rename_i n' hn'
      rw [hn] at hn'
      injection hn' with he
      subst he
      split
      · rename_i hnone2
        rw [hobs] at hnone2
        cases hnone2
      · split
        · rename_i d2' hd2'
          rw [hd2] at hd2'
          injection hd2' with he2
          subst he2
          rw [hset]
        · rename_i hrot
          rw [hd2] at hrot
          cases hrot
      · rename_i hfalse
        rw [hobs] at hfalse
        injection hfalse with hb
        cases hb
  rw [advance, if_neg (fun hc => Bool.noConfusion hc), hwalk]

/-- C9: a guard on a cell enclosed by obstacles on all four cardinal
sides, with a cardinal heading, a visited layer containing exactly its
own cell, rotates 90° clockwise (through `rotate`'s
`Up → Right → Down → Left → Up` cycle) on every `advance`, never moves,
and the distinct-visited-cell count stays exactly 1, for any number of
steps. -/
theorem claim_C9_enclosed_rotation (O V : List (List Bool)) (x y : Nat)
    (d : Direction) (hcard : isCardinal d = true)
    (hvis : cellAt V x y = some true)
    (hone : visited_positions ⟨O, V, ⟨d, (x, y), false⟩⟩ = 1)
    (hencl : ∀ d2, isCardinal d2 = true →
      ∃ n, neighbor_in_direction O d2 x y = some n ∧
        cellAt O n.position.1 n.position.2 = some true) :
    ∀ k, advanceN k ⟨O, V, ⟨d, (x, y), false⟩⟩ =
        .ok ⟨O, V, ⟨dirAfter k d, (x, y), false⟩⟩ ∧
      visited_positions ⟨O, V, ⟨dirAfter k d, (x, y), false⟩⟩ = 1 := by
  intro k
  induction k generalizing d with
  | zero => exact ⟨rfl, hone⟩
  | succ k ih =>
    obtain ⟨d2, hd2, hc2⟩ := rotate_of_cardinal d hcard
    obtain ⟨d2', hd2', hstep⟩ := advance_enclosed_step O V x y d hcard hvis hencl
    rw [hd2] at hd2'
    injection hd2' with he
    subst he
    rw [advanceN, hstep]
    have hda : dirAfter (k + 1) d = dirAfter k d2 := by
      rw [dirAfter, hd2]
    rw [hda]
    exact ih d2 hc2 hone

/-- Witness for the enclosed-rotation theorem on a concrete 3×3 lab,
after 5 steps. -/
theorem claim_C9_enclosed_rotation_witness :
    advanceN 5 ⟨[[false, true, false], [true, false, true],
        [false, true, false]],
      [[false, false, false], [false, true, false], [false, false, false]],
      ⟨.Up, (1, 1), false⟩⟩ =
      .ok ⟨[[false, true, false], [true, false, true], [false, true, false]],
        [[false, false, false], [false, true, false], [false, false, false]],
        ⟨dirAfter 5 .Up, (1, 1), false⟩⟩ ∧
    visited_positions ⟨[[false, true, false], [true, false, true],
        [false, true, false]],
      [[false, false, false], [false, true, false], [false, false, false]],
      ⟨dirAfter 5 .Up, (1, 1), false⟩⟩ = 1 :=
  claim_C9_enclosed_rotation
    [[false, true, false], [true, false, true], [false, true, false]]
    [[false, false, false], [false, true, false], [false, false, false]]
    1 1 .Up rfl (by decide) (by decide)
    (by
      intro d2 hc
      cases d2 with
      | Up => exact ⟨Neighbor.new .Up 1 0, by decide, by decide⟩
      | Down => exact ⟨Neighbor.new .Down 1 2, by decide, by decide⟩
      | Left => exact ⟨Neighbor.new .Left 0 1, by decide, by decide⟩
      | Right => exact ⟨Neighbor.new .Right 2 1, by decide, by decide⟩
      | UpperRight => simp [isCardinal] at hc
      | UpperLeft => simp [isCardinal] at hc
      | LowerRight => simp [isCardinal] at hc
      | LowerLeft => simp [isCardinal] at hc) 5

theorem rotate_some_cardinal (d d2 : Direction) (h : rotate d = some d2) :
    isCardinal d2 = true := by
  cases d <;> simp [rotate] at h <;> subst h <;> rfl

theorem setCell_mono (V : List (List Bool)) (y x a b : Nat)
    (h : cellAt V a b = some true) :
    cellAt (setCell V y x) a b = some true := by
  rw [cellAt] at h
  rw [cellAt, setCell, List.getElem?_set]
  by_cases hby : y = b
  · subst hby
    cases hr : V[y]? with
    | none => rw [hr] at h; cases h
    | some r =>
      rw [hr] at h
      have h2 : r[a]? = some true := h
      rw [if_pos rfl, if_pos ((isSome_iff_lt V y).1 (by simp [hr]))]
      show ((rowGet V y).set x true)[a]? = some true
      rw [rowGet_eq V y r hr, List.getElem?_set]
      by_cases hxa : x = a
      · rw [if_pos hxa,
          if_pos (by have := (isSome_iff_lt r a).1 (by simp [h2]); omega)]
      · rw [if_neg hxa]
        exact h2
  · rw [if_neg hby]
    exact h

/-- A successful walk either terminates at the boundary (same heading,
`has_left` set) or at an obstacle (heading rotated once), and only ever
adds `true` cells to the visited layer. -/
theorem advanceWalk_props (O : List (List Bool)) (d : Direction)
    (V : List (List Bool)) (x y : Nat) (v : List (List Bool))
    (g : GuardState) (h : advanceWalk O d V x y = .ok (v, g)) :
    ((g.direction = d ∧ g.has_left = true) ∨
      (rotate d = some g.direction ∧ g.has_left = false)) ∧
    (∀ a b, cellAt V a b = some true → cellAt v a b = some true) := by
  rw [advanceWalk] at h
  by_cases hvis : (cellAt V x y).isSome = true
  · rw [if_pos hvis] at h
    by_cases hnp : nid_panics O d x y
    · rw [if_pos hnp] at h
      cases h
    · rw [if_neg hnp] at h
      split at h
      · cases h
        exact ⟨Or.inl ⟨rfl, rfl⟩, fun a b hab => setCell_mono V y x a b hab⟩
      · rename_i n hstep
        split at h
        · cases h
        · split at h
          · cases h
            exact ⟨Or.inr ⟨by assumption, rfl⟩,
              fun a b hab => setCell_mono V y x a b hab⟩
          · cases h
        · have hrec := advanceWalk_props O d (setCell V y x)
            n.position.1 n.position.2 v g h
          exact ⟨hrec.1,
            fun a b hab => hrec.2 a b (setCell_mono V y x a b hab)⟩
  · rw [if_neg hvis] at h
    cases h
termination_by walkMeasure O d x y
decreasing_by
  apply nid_measure_lt O d x y
  assumption

/-- A walk with a cardinal heading never reaches `rotate`'s
`unreachable!` branch. -/
theorem advanceWalk_no_rp (O : List (List Bool)) (d : Direction)
    (hcard : isCardinal d = true) (V : List (List Bool)) (x y : Nat)
    (h : advanceWalk O d V x y = .error .rotatePanic) : False := by
  rw [advanceWalk] at h
  by_cases hvis : (cellAt V x y).isSome = true
  · rw [if_pos hvis] at h
    by_cases hnp : nid_panics O d x y
    · rw [if_pos hnp] at h
      cases h
    · rw [if_neg hnp] at h
      split at h
      · cases h
      · rename_i n hstep
        split at h
        · cases h
        · split at h
          · cases h
          · rename_i hrot
            obtain ⟨d2, hd2, -⟩ := rotate_of_cardinal d hcard
            rw [hd2] at hrot
            cases hrot
        · exact advanceWalk_no_rp O d hcard (setCell V y x)
            n.position.1 n.position.2 h
  · rw [if_neg hvis] at h
    cases h
termination_by walkMeasure O d x y
decreasing_by
  apply nid_measure_lt O d x y
  assumption

theorem advance_props (s s2 : LabState) (h : advance s = .ok s2) :
    s2.obstacles = s.obstacles ∧
    ((s2.guard.direction = s.guard.direction ∧ s2.guard.has_left = true) ∨
      (rotate s.guard.direction = some s2.guard.direction ∧
        s2.guard.has_left = false)) ∧
    (∀ a b, cellAt s.visited a b = some true →
      cellAt s2.visited a b = some true) := by
  rw [advance] at h
  by_cases hl : s.guard.has_left = true
  · rw [if_pos hl] at h
    cases h
  · rw [if_neg hl] at h
    cases hw : advanceWalk s.obstacles s.guard.direction s.visited
        s.guard.position.1 s.guard.position.2 with
    | error e =>
      rw [hw] at h
      cases h
    | ok r =>
      obtain ⟨v, g⟩ := r
      rw [hw] at h
      cases h
      obtain ⟨hdisj, hmono⟩ := advanceWalk_props s.obstacles
        s.guard.direction s.visited s.guard.position.1 s.guard.position.2
        v g hw
      exact ⟨rfl, hdisj, hmono⟩

theorem lastCaret_getElem :
    ∀ (cs : List Char) (i : Nat), lastCaret cs = some i → cs[i]? = some '^'
  | [], i, h => by cases h
  | c :: cs, i, h => by
    rw [lastCaret] at h
    cases hlc : lastCaret cs with
    | some i0 =>
      rw [hlc] at h
      injection h with h2
      subst h2
      simpa using lastCaret_getElem cs i0 hlc
    | none =>
      rw [hlc] at h
      by_cases hc : c = '^'
      · rw [if_pos hc] at h
        injection h with h2
        subst h2
        simp [hc]
      · rw [if_neg hc] at h
        cases h

theorem lastCaretPos_cell :
    ∀ (ls : List (List Char)) (i j : Nat), lastCaretPos ls = some (i, j) →
      ∃ l, ls[j]? = some l ∧ l[i]? = some '^'
  | [], _, _, h => by cases h
  | l :: ls, i, j, h => by
    rw [lastCaretPos] at h
    cases hlp : lastCaretPos ls with
    | some p =>
      obtain ⟨x0, y0⟩ := p
      rw [hlp] at h
      injection h with h2
      injection h2 with ha hb
      subst ha
      subst hb
      obtain ⟨l2, hl2, hc2⟩ := lastCaretPos_cell ls x0 y0 hlp
      exact ⟨l2, by simpa using hl2, hc2⟩
    | none =>
      rw [hlp] at h
      cases hlc : lastCaret l with
      | some i0 =>
        rw [hlc] at h
        injection h with h2
        injection h2 with ha hb
        subst ha
        subst hb
        exact ⟨l, by simp, lastCaret_getElem l i0 hlc⟩
      | none =>
        rw [hlc] at h
        cases h

/-- Parsing facts needed for the reachability invariants: the initial
guard heads `Up`, has not left, and its cell is already visited. -/
theorem parse_facts (ls : List (List Char)) (s0 : LabState)
    (h : labFromLines ls = .ok s0) :
    s0.guard.direction = Direction.Up ∧ s0.guard.has_left = false ∧
    cellAt s0.visited s0.guard.position.1 s0.guard.position.2 = some true := by
  by_cases hall : ∀ l ∈ ls, ∀ c ∈ l, validChar c
  · have hrows := parseRows_eq ls 0 none hall
    cases hlp : lastCaretPos ls with
    | none =>
      rw [hlp] at hrows
      rw [labFromLines, hrows] at h
      cases h
    | some p =>
      obtain ⟨i, j⟩ := p
      rw [hlp] at hrows
      rw [labFromLines, hrows] at h
      cases h
      refine ⟨rfl, rfl, ?_⟩
      obtain ⟨l, hlj, hli⟩ := lastCaretPos_cell ls i j hlp
      show cellAt (ls.map (fun l => l.map (fun c => c == '^'))) i (0 + j) =
        some true
      rw [Nat.zero_add, cellAt, List.getElem?_map, hlj]
      show (l.map (fun c => c == '^'))[i]? = some true
      rw [List.getElem?_map, hli]
      rfl
  · obtain ⟨e, he⟩ := parseRows_err ls 0 none (by push_neg at hall; exact hall)
    rw [labFromLines, he] at h
    cases h

/-- C10: every state reachable from a parsed lab by successful `advance`
steps has a cardinal heading (so `rotate`'s diagonal `unreachable!`
branch is never executed — advancing it can never fail with
`rotatePanic`), keeps the obstacle layer unchanged, only ever adds
visited cells, and always keeps the guard's start cell visited. -/
theorem claim_C10_reachable_invariants (ls : List (List Char))
    (s0 s : LabState) (h0 : labFromLines ls = .ok s0) (k : Nat)
    (hk : advanceN k s0 = .ok s) :
    isCardinal s.guard.direction = true ∧
    s.obstacles = s0.obstacles ∧
    (∀ a b, cellAt s0.visited a b = some true →
      cellAt s.visited a b = some true) ∧
    cellAt s.visited s0.guard.position.1 s0.guard.position.2 = some true ∧
    advance s ≠ .error Fail.rotatePanic := by
  obtain ⟨hdir0, hleft0, hstart0⟩ := parse_facts ls s0 h0
  have main : ∀ (k : Nat) (t s : LabState), advanceN k t = .ok s →
      (isCardinal t.guard.direction = true ∧ t.obstacles = s0.obstacles ∧
        (∀ a b, cellAt s0.visited a b = some true →
          cellAt t.visited a b = some true)) →
      isCardinal s.guard.direction = true ∧ s.obstacles = s0.obstacles ∧
        (∀ a b, cellAt s0.visited a b = some true →
          cellAt s.visited a b = some true) := by
    intro k
    induction k with
    | zero =>
      intro t s hs hI
      cases hs
      exact hI
    | succ k ih =>
      intro t s hs hI
      rw [advanceN] at hs
      cases hadv : advance t with
      | error e =>
        rw [hadv] at hs
        cases hs
      | ok s1 =>
        rw [hadv] at hs
        obtain ⟨hobs, hdisj, hmono⟩ := advance_props t s1 hadv
        refine ih s1 s hs ⟨?_, ?_, ?_⟩
        · rcases hdisj with ⟨hd, -⟩ | ⟨hr, -⟩
          · rw [hd]
            exact hI.1
          · exact rotate_some_cardinal _ _ hr
        · rw [hobs]
          exact hI.2.1
        · intro a b hab
          exact hmono a b (hI.2.2 a b hab)
  obtain ⟨hcard, hobs, hmono⟩ := main k s0 s hk
    ⟨by rw [hdir0]; rfl, rfl, fun a b hab => hab⟩
  refine ⟨hcard, hobs, hmono, hmono _ _ hstart0, ?_⟩
  intro hcontra
  rw [advance] at hcontra
  by_cases hl : s.guard.has_left = true
  · rw [if_pos hl] at hcontra
    cases hcontra
  · rw [if_neg hl] at hcontra
    cases hw : advanceWalk s.obstacles s.guard.direction s.visited
        s.guard.position.1 s.guard.position.2 with
    | error e =>
      rw [hw] at hcontra
      cases hcontra
      exact advanceWalk_no_rp s.obstacles s.guard.direction hcard
        s.visited s.guard.position.1 s.guard.position.2 hw
    | ok r =>
      rw [hw] at hcontra
      obtain ⟨v, g⟩ := r
      cases hcontra

/-- Witness for the reachability-invariants theorem on a concrete 1×1
lab after one step. -/
theorem claim_C10_reachable_invariants_witness :
    isCardinal (LabState.mk [[false]] [[true]]
      ⟨.Up, (0, 0), true⟩).guard.direction = true ∧
    (LabState.mk [[false]] [[true]] ⟨.Up, (0, 0), true⟩).obstacles =
      (LabState.mk [[false]] [[true]] ⟨.Up, (0, 0), false⟩).obstacles ∧
    (∀ a b, cellAt (LabState.mk [[false]] [[true]]
        ⟨.Up, (0, 0), false⟩).visited a b = some true →
      cellAt (LabState.mk [[false]] [[true]]
        ⟨.Up, (0, 0), true⟩).visited a b = some true) ∧
    cellAt (LabState.mk [[false]] [[true]] ⟨.Up, (0, 0), true⟩).visited
      (LabState.mk [[false]] [[true]]
        ⟨.Up, (0, 0), false⟩).guard.position.1
      (LabState.mk [[false]] [[true]]
        ⟨.Up, (0, 0), false⟩).guard.position.2 = some true ∧
    advance ⟨[[false]], [[true]], ⟨.Up, (0, 0), true⟩⟩ ≠
      .error Fail.rotatePanic :=
  claim_C10_reachable_invariants [['^']]
    ⟨[[false]], [[true]], ⟨.Up, (0, 0), false⟩⟩
    ⟨[[false]], [[true]], ⟨.Up, (0, 0), true⟩⟩ rfl 1
    (by
      have hw : advanceWalk [[false]] .Up [[true]] 0 0 =
          .ok ([[true]], ⟨.Up, (0, 0), true⟩) := by
        rw [advanceWalk]
        simp [cellAt, setCell, nid_panics, neighbor_in_direction, rowGet,
          Neighbor.new]
      rw [advanceN, advance, if_neg (by decide), hw]
      rfl)

end AoC2024
